import Mathlib

/-!
Verification development for the dice-game program in `task3.py`.

The Python program is shallowly embedded:

* bytes are `Fin 256`; `secrets.token_bytes` results and user stdin lines are
  injected as explicit parameters (the program's only sources of nondeterminism);
* the keyed hash `hmac.new(key, msg, hashlib.sha3_256).hexdigest()` is an
  abstract parameter `H : List Byte → List Byte → String` — the claims under
  study depend only on the HMAC being a deterministic function of key and
  message, not on the SHA3 compression function itself;
* interactive methods become functions from the list of stdin lines to an
  event trace (what the program printed / captured, in order) together with an
  outcome (normal value, `sys.exit(code)`, raised exception, or exhausted
  input, which models the real process blocking forever on `input()`).
-/

/-- A byte, as produced by `secrets.token_bytes`. -/
def Byte : Type := Fin 256

instance : DecidableEq Byte := instDecidableEqFin 256

instance (n : Nat) [NeZero (n % 256)] : OfNat Byte n := Fin.instOfNat

instance : OfNat Byte 0 := ⟨(0 : Fin 256)⟩

/-- Number of binary digits, fuelled to keep the recursion structural; the
fuel is always sufficient since halving reaches 0 within `n` steps. -/
def pyBitLengthAux : Nat → Nat → Nat
  | 0, _ => 0
  | fuel + 1, n => if n = 0 then 0 else pyBitLengthAux fuel (n / 2) + 1

/-- Number of binary digits of `n`: Python's `int.bit_length()` for `n ≥ 0`. -/
def pyBitLength (n : Nat) : Nat := pyBitLengthAux n n

/-- Python `int.from_bytes(bs, "big")`. -/
def fromBytesBE (bs : List Byte) : Nat :=
  bs.foldl (fun acc b => acc * 256 + b.val) 0

/-- Python `n.to_bytes(len, "big")` (big-endian, exactly `len` bytes, low bytes of `n`). -/
def toBytesBE : Nat → Nat → List Byte
  | 0, _ => []
  | len + 1, n => toBytesBE len (n / 256) ++ [⟨n % 256, Nat.mod_lt n (by norm_num)⟩]

/-- Byte count Python computes in `SecureRandomizer.get_hmac`:
`(self.computer_number.bit_length() + 7) // 8 or 1`. -/
def hmacNumBytes (n : Nat) : Nat :=
  let k := (pyBitLength n + 7) / 8
  if k = 0 then 1 else k

/-- The minimal big-endian message encoding of the committed value used by
`get_hmac`: `self.computer_number.to_bytes(num_bytes, "big")`. -/
def hmacMessage (n : Nat) : List Byte :=
  toBytesBE (hmacNumBytes n) n

/-- Lowercase hexadecimal digit, as in Python's `bytes.hex()` / `hexdigest()`. -/
def hexDigit (n : Nat) : Char :=
  if n < 10 then Char.ofNat (48 + n) else Char.ofNat (87 + n)

/-- Python `bytes.hex()`: two lowercase hex digits per byte. -/
def hexEncodeBytes (bs : List Byte) : String :=
  ⟨bs.flatMap (fun b => [hexDigit (b.val / 16), hexDigit (b.val % 16)])⟩

/-- Value of one hexadecimal digit character, `none` if not a hex digit. -/
def hexDigitVal (c : Char) : Option Nat :=
  if 48 ≤ c.toNat ∧ c.toNat ≤ 57 then some (c.toNat - 48)
  else if 97 ≤ c.toNat ∧ c.toNat ≤ 102 then some (c.toNat - 87)
  else if 65 ≤ c.toNat ∧ c.toNat ≤ 70 then some (c.toNat - 55)
  else none

/-- Python `bytes.fromhex` on a list of characters: pairs of hex digits. -/
def hexDecodeChars : List Char → Option (List Byte)
  | [] => some []
  | [_] => none
  | c₁ :: c₂ :: cs => do
    let h ← hexDigitVal c₁
    let l ← hexDigitVal c₂
    if hh : h < 16 then
      if hl : l < 16 then
        let rest ← hexDecodeChars cs
        return ⟨h * 16 + l, by omega⟩ :: rest
      else none
    else none

/-- Python `bytes.fromhex(s)`. -/
def hexDecode (s : String) : Option (List Byte) :=
  hexDecodeChars s.data

/-- The keyed hash `hmac.new(key, msg, hashlib.sha3_256).hexdigest()`, abstracted
over the concrete compression function. -/
def HmacFun : Type := List Byte → List Byte → String

/-- State of `SecureRandomizer` after `__init__(start, end)`: the secret key is
`secrets.token_bytes(32)` and `computer_number` is the rejection-sampled draw;
both are injected here since they are the program's randomness. -/
structure SecureRandomizer where
  start : Int
  stop : Int
  secret_key : List Byte
  computer_number : Int
deriving DecidableEq

/-- Python `self.range_size = end - start + 1`. -/
def SecureRandomizer.range_size (r : SecureRandomizer) : Int :=
  r.stop - r.start + 1

/-- `SecureRandomizer.get_hmac`: HMAC-SHA3-256 of the minimal big-endian
encoding of `computer_number`, keyed by `secret_key`, as a hex digest.
(Python would raise on a negative `computer_number`; the program only ever
commits to values in `[0, end]`, where `Int.toNat` is the identity.) -/
def SecureRandomizer.get_hmac (H : HmacFun) (r : SecureRandomizer) : String :=
  H r.secret_key (hmacMessage r.computer_number.toNat)

/-- `SecureRandomizer.reveal`: returns `(self.computer_number, self.secret_key.hex())`.
The Python method body is a single return statement — it performs no check. -/
def SecureRandomizer.reveal (r : SecureRandomizer) : Int × String :=
  (r.computer_number, hexEncodeBytes r.secret_key)

/-- Byte count drawn per iteration of `_generate_secure_random`:
`bits_needed = self.range_size.bit_length()`, then `(bits_needed + 7) // 8`. -/
def numBytesDrawn (rangeSize : Int) : Nat :=
  (pyBitLength rangeSize.toNat + 7) / 8

/-- `SecureRandomizer._generate_secure_random`: rejection sampling.  Each
element of `draws` is one `secrets.token_bytes` result; the loop interprets it
big-endian and accepts iff it is strictly below `range_size`, else redraws.
`none` models exhausting the injected entropy (the real loop would keep drawing). -/
def generate_secure_random (start stop : Int) : List (List Byte) → Option Int
  | [] => none
  | d :: rest =>
    let rangeSize := stop - start + 1
    let randNum : Int := fromBytesBE d
    if randNum < rangeSize then some (randNum + start)
    else generate_secure_random start stop rest

/-- The counterparty's verification step for claim C2: decode the revealed hex
key, re-encode the revealed value minimally big-endian, and recompute the tag. -/
def recomputeTag (H : HmacFun) (p : Int × String) : Option String :=
  (hexDecode p.2).map (fun keyBytes => H keyBytes (hmacMessage p.1.toNat))

/-- An operation a caller can perform on a live `SecureRandomizer`. -/
inductive SessionOp
  | getTag
  | doReveal
deriving DecidableEq

/-- Result of one successful `SecureRandomizer` method call. -/
inductive CallResult
  | tagShown (tag : String)
  | valueRevealed (value : Int) (key : String)
deriving DecidableEq

/-- Runs a sequence of method calls on one `SecureRandomizer` instance.  Each
call's result is an `Except`: a Python method that raises would produce
`.error`; neither `get_hmac` nor `reveal` contains a raise, so every call
returns `.ok` regardless of order or repetition. -/
def runOps (H : HmacFun) (r : SecureRandomizer) : List SessionOp → List (Except String CallResult)
  | [] => []
  | .getTag :: ops => .ok (.tagShown (r.get_hmac H)) :: runOps H r ops
  | .doReveal :: ops =>
    .ok (.valueRevealed r.reveal.1 r.reveal.2) :: runOps H r ops

/-- The `Dice` class: an ordered list of integer faces. -/
structure Dice where
  sides : List Int
deriving DecidableEq

/-- `Dice.num_sides`. -/
def Dice.num_sides (d : Dice) : Nat := d.sides.length

/-- `Dice.get_value(index)`: `self.sides[index]`.  Python raises on an
out-of-range index; the program only indexes with `(a + b) % num_sides`,
which is always in range, so the default is never consulted. -/
def Dice.get_value (d : Dice) (index : Nat) : Int := d.sides.getD index 0

/-- `itertools.product(dice_a.sides, dice_b.sides)`. -/
def pyProduct (as' bs : List Int) : List (Int × Int) :=
  as'.flatMap (fun a => bs.map (fun b => (a, b)))

/-- The `a_wins` counter of `ProbabilityCalculator.calculate_probability`:
ordered face pairs where A's face strictly exceeds B's. -/
def winCount (a b : Dice) : Nat :=
  ((pyProduct a.sides b.sides).filter (fun p => decide (p.2 < p.1))).length

/-- The `total` counter: the full Cartesian-product pair count. -/
def totalPairs (a b : Dice) : Nat :=
  (pyProduct a.sides b.sides).length

/-- Ordered face pairs with equal faces (counted for neither side). -/
def tieCount (a b : Dice) : Nat :=
  ((pyProduct a.sides b.sides).filter (fun p => decide (p.1 = p.2))).length

/-- `ProbabilityCalculator.calculate_probability`:
`a_wins / total if total > 0 else 0.0`.  Python computes the quotient in
floating point for display; the claims are about the exact ratio, embedded in `ℚ`. -/
def calculate_probability (a b : Dice) : ℚ :=
  if 0 < totalPairs a b then (winCount a b : ℚ) / (totalPairs a b : ℚ) else 0

/-- Python whitespace stripped by `str.strip()` (the characters that occur in
this program's inputs). -/
def isPyWhitespace (c : Char) : Bool :=
  c = ' ' ∨ c = '\t' ∨ c = '\n' ∨ c = '\r'

/-- Python `str.strip()` on a character list. -/
def pyStrip (s : List Char) : List Char :=
  ((s.dropWhile isPyWhitespace).reverse.dropWhile isPyWhitespace).reverse

/-- Python `str.upper()` (ASCII inputs). -/
def pyUpper (s : List Char) : List Char :=
  s.map Char.toUpper

/-- Python `str.split(',')`: keeps empty fields, never drops separators. -/
def splitOnComma : List Char → List (List Char)
  | [] => [[]]
  | c :: cs =>
    match splitOnComma cs with
    | [] => [[]]
    | field :: fields => if c = ',' then [] :: field :: fields else (c :: field) :: fields

/-- Whether every character is an ASCII decimal digit. -/
def allDigits (cs : List Char) : Bool :=
  cs.all (fun c => 48 ≤ c.toNat ∧ c.toNat ≤ 57)

/-- Decimal value of a digit list. -/
def digitsToNat (cs : List Char) : Nat :=
  cs.foldl (fun acc c => acc * 10 + (c.toNat - 48)) 0

/-- Python `int(s)`: strips whitespace, then an optional sign followed by a
non-empty digit string; anything else raises `ValueError` (`none`). -/
def parsePyInt (s : List Char) : Option Int :=
  match pyStrip s with
  | '-' :: rest =>
    if rest ≠ [] ∧ allDigits rest then some (-(digitsToNat rest : Int)) else none
  | '+' :: rest =>
    if rest ≠ [] ∧ allDigits rest then some (digitsToNat rest : Int) else none
  | rest =>
    if rest ≠ [] ∧ allDigits rest then some (digitsToNat rest : Int) else none

/-- The validation failures `DiceParser` can raise; payloads are the 1-based
dice numbers the Python error messages mention. -/
inductive ParseErr
  | tooFewDice
  | nonInteger (diceNumber : Nat)
  | tooFewSides (diceNumber : Nat) (sides : Nat)
  | sizeMismatch (expectedSize : Nat) (diceNumber : Nat) (actualSize : Nat)
  | identicalDice (i : Nat) (j : Nat)
  | sharedValues (i : Nat) (j : Nat)
deriving DecidableEq

/-- `DiceParser._parse_dice_values(arg, dice_number)`:
split on commas, strip each token, drop empty tokens, parse each as an
integer (any failure means the whole die is non-integer), then require at
least 6 faces. -/
def parse_dice_values (arg : String) (diceNumber : Nat) : Except ParseErr (List Int) :=
  let values := ((splitOnComma arg.data).map pyStrip).filter (fun t => t ≠ [])
  match values.mapM parsePyInt with
  | none => .error (.nonInteger diceNumber)
  | some diceValues =>
    if diceValues.length < 6 then .error (.tooFewSides diceNumber diceValues.length)
    else .ok diceValues

/-- The `parse` loop body: parse each argument in order, numbering from 1,
stopping at the first failing die. -/
def parseAllDice : Nat → List String → Except ParseErr (List Dice)
  | _, [] => .ok []
  | i, a :: rest => do
    let v ← parse_dice_values a i
    let ds ← parseAllDice (i + 1) rest
    return ⟨v⟩ :: ds

/-- `DiceParser._validate_dice_sizes` scan: first die (numbered from `i`)
whose face count differs from the first die's. -/
def findSizeMismatch (expected : Nat) : Nat → List Dice → Option (Nat × Nat)
  | _, [] => none
  | i, d :: rest =>
    if d.num_sides ≠ expected then some (i, d.num_sides)
    else findSizeMismatch expected (i + 1) rest

/-- Inner loop of the pairwise scans: first later die (numbered from `j`)
related to `d` by `p`. -/
def findPairInner (p : Dice → Dice → Bool) (d : Dice) : Nat → List Dice → Option Nat
  | _, [] => none
  | j, e :: rest => if p d e then some j else findPairInner p d (j + 1) rest

/-- Outer loop of the pairwise scans in `_validate_unique_dice`: first pair
`(i, j)`, `i < j`, in the code's iteration order, related by `p`. -/
def findPairViolation (p : Dice → Dice → Bool) : Nat → List Dice → Option (Nat × Nat)
  | _, [] => none
  | i, d :: rest =>
    match findPairInner p d (i + 1) rest with
    | some j => some (i, j)
    | none => findPairViolation p (i + 1) rest

/-- Two dice have identical ordered face sequences. -/
def identicalSides (d e : Dice) : Bool := d.sides = e.sides

/-- Two dice share at least one face value (`set(a) & set(b)` non-empty). -/
def sharesValue (d e : Dice) : Bool := d.sides.any (fun v => e.sides.contains v)

/-- `DiceParser._validate_dice_sizes`: no check on an empty list, otherwise
every later die must match the first die's face count. -/
def validate_dice_sizes (ds : List Dice) : Except ParseErr Unit :=
  match ds with
  | [] => .ok ()
  | d₀ :: rest =>
    match findSizeMismatch d₀.num_sides 2 rest with
    | some (i, n) => .error (.sizeMismatch d₀.num_sides i n)
    | none => .ok ()

/-- `DiceParser._validate_unique_dice`: the identical-sequence scan runs in
full before the shared-value scan starts. -/
def validate_unique_dice (ds : List Dice) : Except ParseErr Unit :=
  match findPairViolation identicalSides 1 ds with
  | some (i, j) => .error (.identicalDice i j)
  | none =>
    match findPairViolation sharesValue 1 ds with
    | some (i, j) => .error (.sharedValues i j)
    | none => .ok ()

/-- `DiceParser.parse`: minimum argument count, then the per-die parse loop
(integer tokens and face count, interleaved in die order), then equal sizes,
then identical-sequence pairs, then shared-value pairs. -/
def DiceParser.parse (args : List String) : Except ParseErr (List Dice) :=
  if args.length < 3 then .error .tooFewDice
  else
    Except.bind (parseAllDice 1 args) (fun dices =>
      Except.bind (validate_dice_sizes dices) (fun _ =>
        Except.bind (validate_unique_dice dices) (fun _ => .ok dices)))

/-- The orchestrator's protocol stages (spec section 4.7). -/
inductive Stage
  | INIT
  | DETERMINE_FIRST
  | SELECT_DICE
  | SYSTEM_ROUND
  | USER_ROUND
  | COMPARE
  | END
deriving DecidableEq

/-- Observable actions of the program, in the order they happen.  Plain
informational prints (round headers, menus, the winner line) are not
protocol-relevant and carry no event. -/
inductive Event
  | stageEntered (s : Stage)
  | promptShown
  | helpShown
  | invalidInput
  | captureInput (v : Int)
  | showTag (tag : String)
  | valueRevealed (value : Int) (key : String)
  | combined (index : Int)
  | resultShown (face : Int)
deriving DecidableEq

/-- How a piece of interactive code finishes. -/
inductive Outcome (α : Type)
  | ok (a : α)
  | exited (code : Nat)
  | raised (msg : String)
  | stuck
deriving DecidableEq

/-- One interaction step result: the events emitted so far and the outcome;
on `ok` the unconsumed stdin lines are threaded along with the value. -/
def Interaction (α : Type) : Type := List Event × Outcome (α × List String)

/-- Sequencing of interactive steps: events concatenate; `sys.exit`, raised
exceptions and blocked input short-circuit. -/
def andThen {α β : Type} (r : Interaction α) (f : α → List String → Interaction β) :
    Interaction β :=
  match r with
  | (es, .ok (a, rest)) =>
    let (es₂, o) := f a rest
    (es ++ es₂, o)
  | (es, .exited c) => (es, .exited c)
  | (es, .raised m) => (es, .raised m)
  | (es, .stuck) => (es, .stuck)

/-- Prepends one event to an interaction. -/
def withEvent {α : Type} (e : Event) (r : Interaction α) : Interaction α :=
  (e :: r.1, r.2)

/-- The input-loop shape every prompt in the program shares (spec section 6):
strip the line; `?` prints the probability table and re-prompts; `X`/`x`
(after `upper()`) exits the process with status 0; otherwise parse an integer
and re-prompt on a parse failure or a rejected value.  The four concrete
loops differ only in `accept`: which integers they take and what they return. -/
def promptLoop {α : Type} (accept : Int → Option α) : List String → Interaction α
  | [] => ([.promptShown], .stuck)
  | s :: rest =>
    let sel := pyStrip s.data
    if sel = ['?'] then
      withEvent .promptShown (withEvent .helpShown (promptLoop accept rest))
    else if pyUpper sel = ['X'] then ([.promptShown], .exited 0)
    else
      match parsePyInt sel with
      | some v =>
        match accept v with
        | some a => ([.promptShown, .captureInput v], .ok (a, rest))
        | none => withEvent .promptShown (withEvent .invalidInput (promptLoop accept rest))
      | none => withEvent .promptShown (withEvent .invalidInput (promptLoop accept rest))

/-- `GameRound._get_user_input`: re-prompt until a number in
`[0, num_sides)` is entered. -/
def get_user_input (dice : Dice) : List String → Interaction Int :=
  promptLoop (fun v =>
    if 0 ≤ v ∧ v < (dice.num_sides : Int) then some v else none)

/-- The fairness-combination rule inlined in
`GameRound._calculate_and_display_result`: `(comp_number + user_input) % num_sides`. -/
def combine (a b modulus : Int) : Int := (a + b) % modulus

/-- `GameRound._calculate_and_display_result` (its computation and the events
it prints): reveal, combine, index the die. -/
def calculate_and_display_result (dice : Dice) (randomizer : SecureRandomizer)
    (userInput : Int) : List Event × Int :=
  let (compNumber, key) := randomizer.reveal
  let combinedIndex := combine compNumber userInput (dice.num_sides : Int)
  let resultValue := dice.get_value combinedIndex.toNat
  ([.valueRevealed compNumber key, .combined combinedIndex, .resultShown resultValue],
   resultValue)

/-- `GameRound.play`: build the randomizer over `[0, num_sides − 1]` (its key
and committed number are the injected randomness), show its tag, gather the
user's modular input, then reveal and combine.  Returns the resulting face. -/
def GameRound.play (dice : Dice) (H : HmacFun) (rKey : List Byte) (rNum : Int) :
    List String → Interaction Int := fun inputs =>
  let randomizer : SecureRandomizer := ⟨0, (dice.num_sides : Int) - 1, rKey, rNum⟩
  withEvent (.showTag (randomizer.get_hmac H))
    (andThen (get_user_input dice inputs) (fun userInput rest =>
      let (es, resultValue) := calculate_and_display_result dice randomizer userInput
      (es, .ok (resultValue, rest))))

/-- The guessing loop inside `GameOrchestrator._determine_first_player`:
re-prompt until `0` or `1` is entered. -/
def determine_first_loop : List String → Interaction Int :=
  promptLoop (fun v => if v = 0 ∨ v = 1 then some v else none)

/-- `GameOrchestrator._determine_first_player`: one commit–guess–reveal round
over `{0, 1}`; the user goes first iff the guess equals the revealed number. -/
def determine_first_player (H : HmacFun) (tossKey : List Byte) (tossNum : Int)
    (inputs : List String) : Interaction Bool :=
  let toss : SecureRandomizer := ⟨0, 1, tossKey, tossNum⟩
  withEvent (.showTag (toss.get_hmac H))
    (andThen (determine_first_loop inputs) (fun userInput rest =>
      let (compNum, secretKey) := toss.reveal
      ([.valueRevealed compNum secretKey], .ok (decide (compNum = userInput), rest))))

/-- `GameManager._get_remaining_indices`. -/
def get_remaining_indices (diceCount excludedIndex : Nat) : List Nat :=
  (List.range diceCount).filter (fun i => i ≠ excludedIndex)

/-- `GameManager._handle_user_first_selection`: the user picks any index in
range; the computer then picks `secrets.choice` of the remaining indices,
modelled by the injected `pick` reduced modulo the candidate count. -/
def user_first_selection (dices : List Dice) (pick : Nat) :
    List String → Interaction (Dice × Dice) :=
  promptLoop (fun v =>
    if 0 ≤ v ∧ v < (dices.length : Int) then
      let userDiceIndex := v.toNat
      let remaining := get_remaining_indices dices.length userDiceIndex
      let compDiceIndex := remaining.getD (pick % remaining.length) 0
      some (dices.getD userDiceIndex ⟨[]⟩, dices.getD compDiceIndex ⟨[]⟩)
    else none)

/-- The user's loop inside `GameManager._handle_computer_first_selection`:
only an index in the remaining set is accepted. -/
def computer_first_loop (dices : List Dice) (remaining : List Nat) :
    List String → Interaction Dice :=
  promptLoop (fun v =>
    if 0 ≤ v ∧ v.toNat ∈ remaining then some (dices.getD v.toNat ⟨[]⟩) else none)

/-- `GameManager._handle_computer_first_selection`: the computer first takes
`secrets.randbelow(len(dices))` (injected as `pick` modulo the dice count),
then the user picks from the rest. -/
def computer_first_selection (dices : List Dice) (pick : Nat)
    (inputs : List String) : Interaction (Dice × Dice) :=
  let compDiceIndex := pick % dices.length
  let compDice := dices.getD compDiceIndex ⟨[]⟩
  let remaining := get_remaining_indices dices.length compDiceIndex
  andThen (computer_first_loop dices remaining inputs)
    (fun userDice rest => ([], .ok ((userDice, compDice), rest)))

/-- `GameManager.select_dices`: branch on who selects first; returns
`(user_dice, comp_dice)`. -/
def select_dices (dices : List Dice) (userFirst : Bool) (pick : Nat)
    (inputs : List String) : Interaction (Dice × Dice) :=
  if userFirst then user_first_selection dices pick inputs
  else computer_first_selection dices pick inputs

/-- All the randomness one full game consumes, injected. -/
structure Oracle where
  tossKey : List Byte
  tossNum : Int
  dicePick : Nat
  userRoundKey : List Byte
  userRoundNum : Int
  compRoundKey : List Byte
  compRoundNum : Int

/-- Second half of `GameManager.play_game`: after the user's round, the round
named "Computer" plays. -/
def computer_round (H : HmacFun) (compDice : Dice) (o : Oracle) (userResult : Int)
    (rest : List String) : Interaction (Int × Int) :=
  withEvent (.stageEntered .SYSTEM_ROUND)
    (andThen (GameRound.play compDice H o.compRoundKey o.compRoundNum rest)
      (fun compResult rest₂ => ([], .ok ((userResult, compResult), rest₂))))

/-- `GameManager.play_game`: the round named "User" plays first, then the
round named "Computer"; returns `(user_result, comp_result)`. -/
def play_game (H : HmacFun) (userDice compDice : Dice) (o : Oracle)
    (inputs : List String) : Interaction (Int × Int) :=
  withEvent (.stageEntered .USER_ROUND)
    (andThen (GameRound.play userDice H o.userRoundKey o.userRoundNum inputs)
      (computer_round H compDice o))

/-- `GameOrchestrator._display_final_results` and the end of the game, as the
COMPARE and END stages of the trace. -/
def compare_results (_results : Int × Int) (rest : List String) : Interaction Unit :=
  ([.stageEntered .COMPARE, .stageEntered .END], .ok ((), rest))

/-- `GameOrchestrator._play_main_game`: select dice, then play both rounds,
then compare. -/
def main_game (H : HmacFun) (dices : List Dice) (o : Oracle) (userFirst : Bool)
    (inputs : List String) : Interaction Unit :=
  withEvent (.stageEntered .SELECT_DICE)
    (andThen (select_dices dices userFirst o.dicePick inputs)
      (fun dicePair rest =>
        andThen (play_game H dicePair.1 dicePair.2 o rest) compare_results))

/-- The body of `GameOrchestrator.run_game` before its exception handler:
parse the dice arguments (a `ValueError` propagates as `.raised`), determine
the first player, select dice, play both rounds, compare. -/
def run_game_inner (H : HmacFun) (args : List String) (o : Oracle)
    (inputs : List String) : Interaction Unit :=
  withEvent (.stageEntered .INIT)
    (match DiceParser.parse args with
     | .error _ => ([], .raised "ValueError")
     | .ok dices =>
       withEvent (.stageEntered .DETERMINE_FIRST)
         (andThen (determine_first_player H o.tossKey o.tossNum inputs)
           (main_game H dices o)))

/-- `GameOrchestrator.run_game` with its `except Exception` handler and the
process exit status: a raised exception prints the error and exits 1; a
`SystemExit` (`sys.exit(0)` from a prompt) is not an `Exception` and passes
through unchanged; normal completion exits 0.  `none` models a process still
blocked reading stdin. -/
def run_game (H : HmacFun) (args : List String) (o : Oracle)
    (inputs : List String) : List Event × Option Nat :=
  match run_game_inner H args o inputs with
  | (es, .ok _) => (es, some 0)
  | (es, .exited c) => (es, some c)
  | (es, .raised _) => (es, some 1)
  | (es, .stuck) => (es, none)

/-- The stage markers of a trace, in order. -/
def stagesOf (es : List Event) : List Stage :=
  es.filterMap (fun e => match e with | .stageEntered s => some s | _ => none)

/-- Scanning left to right, the first capture-or-reveal event is a capture (or
no reveal occurs at all): every reveal is strictly preceded by an input capture. -/
def revealAfterCapture : List Event → Bool
  | [] => true
  | .captureInput _ :: _ => true
  | .valueRevealed _ _ :: _ => false
  | _ :: es => revealAfterCapture es

lemma hexDigitVal_hexDigit {n : Nat} (h : n < 16) :
    hexDigitVal (hexDigit n) = some n := by
  interval_cases n <;> rfl

lemma hexDecodeChars_encode (bs : List Byte) :
    hexDecodeChars (bs.flatMap (fun b => [hexDigit (b.val / 16), hexDigit (b.val % 16)])) =
      some bs := by
  induction bs with
  | nil => rfl
  | cons b rest ih =>
    have hhi : b.val / 16 < 16 := by omega
    have hlo : b.val % 16 < 16 := by omega
    have hflat :
        (b :: rest).flatMap (fun b => [hexDigit (b.val / 16), hexDigit (b.val % 16)]) =
          hexDigit (b.val / 16) :: hexDigit (b.val % 16) ::
            rest.flatMap (fun b => [hexDigit (b.val / 16), hexDigit (b.val % 16)]) := by
      simp
    rw [hflat, hexDecodeChars, hexDigitVal_hexDigit hhi, hexDigitVal_hexDigit hlo]
    have hb : (⟨b.val / 16 * 16 + b.val % 16, by omega⟩ : Byte) = b := by
      apply Fin.ext
      show b.val / 16 * 16 + b.val % 16 = b.val
      omega
    simp [hhi, hlo, ih, hb]

lemma hexDecode_hexEncode (bs : List Byte) :
    hexDecode (hexEncodeBytes bs) = some bs :=
  hexDecodeChars_encode bs

/-- C2: for every commitment, recomputing the keyed hash from the pair
`(value, key)` returned by `reveal()` — hex-decoding the key and re-encoding
the value minimally big-endian — yields exactly the tag `get_hmac()` showed.
The SHA3-256 HMAC is abstracted as the function `H` the two computations share. -/
theorem reveal_verifies_commitment (H : HmacFun) (r : SecureRandomizer) :
    recomputeTag H r.reveal = some (r.get_hmac H) := by
  unfold recomputeTag SecureRandomizer.reveal SecureRandomizer.get_hmac
  rw [hexDecode_hexEncode]
  rfl

/-- C2 witness: the round-trip at a concrete commitment. -/
theorem reveal_verifies_commitment_witness :
    recomputeTag (fun k m => hexEncodeBytes (k ++ m))
      (SecureRandomizer.reveal ⟨0, 5, [171, 205], 3⟩) =
      some (SecureRandomizer.get_hmac (fun k m => hexEncodeBytes (k ++ m)) ⟨0, 5, [171, 205], 3⟩) :=
  reveal_verifies_commitment (fun k m => hexEncodeBytes (k ++ m)) ⟨0, 5, [171, 205], 3⟩

/-- C3 counterexample: on a concrete commitment, calling `reveal` twice with
no tag ever shown produces two successful calls, both returning the committed
value and key — the second call does not fail, and a reveal before any
`get_hmac` does not fail, contradicting the claim that at most one successful
reveal is possible and that early or repeated reveals abort. -/
theorem reveal_no_guard_cex :
    runOps (fun _ _ => "t") ⟨0, 5, [171, 205], 3⟩ [.doReveal, .doReveal] =
      [Except.ok (.valueRevealed 3 "abcd"), Except.ok (.valueRevealed 3 "abcd")] := by
  rfl

/-- C3 amended: `SecureRandomizer.reveal` performs no integrity check at all:
in any sequence of method calls on a commitment, every call succeeds, and
every `reveal` — however early, however often — returns the same committed
`(value, key)` pair. -/
theorem reveal_unguarded_idempotent (H : HmacFun) (r : SecureRandomizer)
    (ops : List SessionOp) :
    (∀ res ∈ runOps H r ops, ∃ c, res = Except.ok c) ∧
    (∀ i, ops.get? i = some .doReveal →
      (runOps H r ops).get? i =
        some (Except.ok (.valueRevealed r.computer_number (hexEncodeBytes r.secret_key)))) := by
  induction ops with
  | nil => exact ⟨by simp [runOps], by intro i h; simp at h⟩
  | cons op rest ih =>
    cases op with
    | getTag =>
      refine ⟨?_, ?_⟩
      · intro res hres
        rw [runOps] at hres
        rcases List.mem_cons.mp hres with h | h
        · exact ⟨_, h⟩
        · exact ih.1 res h
      · intro i h
        cases i with
        | zero => simp at h
        | succ j =>
          rw [runOps]
          simpa using ih.2 j (by simpa using h)
    | doReveal =>
      refine ⟨?_, ?_⟩
      · intro res hres
        rw [runOps] at hres
        rcases List.mem_cons.mp hres with h | h
        · exact ⟨_, h⟩
        · exact ih.1 res h
      · intro i h
        cases i with
        | zero => rfl
        | succ j =>
          rw [runOps]
          simpa using ih.2 j (by simpa using h)

/-- C3 amended, witness: a reveal as the very first call on a concrete
commitment already succeeds with the committed pair. -/
theorem reveal_unguarded_idempotent_witness :
    (runOps (fun _ _ => "t") ⟨0, 5, [171, 205], 3⟩ [.doReveal]).get? 0 =
      some (Except.ok (.valueRevealed 3 (hexEncodeBytes [171, 205]))) :=
  (reveal_unguarded_idempotent (fun _ _ => "t") ⟨0, 5, [171, 205], 3⟩ [.doReveal]).2 0 rfl

/-- C5: rejection sampling.  Accepted draws are interpreted big-endian and
accepted iff strictly below `max − min + 1`, then shifted by `min`; whenever
the generator returns at all on a valid range, the result lies in `[min, max]`.
The second conjunct is the loop's step rule: accept or redraw. -/
theorem generate_secure_random_range :
    (∀ (start stop : Int) (draws : List (List Byte)) (v : Int),
      start ≤ stop →
      (∀ d ∈ draws, d.length = numBytesDrawn (stop - start + 1)) →
      generate_secure_random start stop draws = some v →
      start ≤ v ∧ v ≤ stop) ∧
    (∀ (start stop : Int) (d : List Byte) (rest : List (List Byte)),
      generate_secure_random start stop (d :: rest) =
        if (fromBytesBE d : Int) < stop - start + 1 then some ((fromBytesBE d : Int) + start)
        else generate_secure_random start stop rest) := by
  constructor
  · intro start stop draws v hle hlen hgen
    induction draws with
    | nil => simp [generate_secure_random] at hgen
    | cons d rest ih =>
      rw [generate_secure_random] at hgen
      by_cases hacc : (fromBytesBE d : Int) < stop - start + 1
      · rw [if_pos hacc] at hgen
        have hv : (fromBytesBE d : Int) + start = v := by simpa using hgen
        have hnn : (0 : Int) ≤ (fromBytesBE d : Int) := Int.natCast_nonneg _
        omega
      · rw [if_neg hacc] at hgen
        exact ih (fun e he => hlen e (List.mem_cons_of_mem d he)) hgen
  · intro start stop d rest
    rw [generate_secure_random]

/-- C5 witness: over `[0, 5]` the first draw `7` is rejected (`7 ≥ 6`) and the
second draw `3` is accepted, giving a value inside the range. -/
theorem generate_secure_random_range_witness :
    (0 : Int) ≤ 3 ∧ (3 : Int) ≤ 5 :=
  generate_secure_random_range.1 0 5 [[7], [3]] 3 (by decide) (by decide) (by decide)

/-- C6: the fairness combination `(a + b) mod n` is commutative in `(a, b)`
and lands in `[0, n − 1]` for `a, b ≥ 0`, `n ≥ 1`; the round result is the
selected die's face at that combined index. -/
theorem combine_commutative_bounded :
    (∀ a b n : Int, 0 ≤ a → 0 ≤ b → 1 ≤ n →
      combine a b n = combine b a n ∧ 0 ≤ combine a b n ∧ combine a b n ≤ n - 1) ∧
    (∀ (dice : Dice) (randomizer : SecureRandomizer) (userInput : Int),
      (calculate_and_display_result dice randomizer userInput).2 =
        dice.get_value (combine randomizer.computer_number userInput (dice.num_sides : Int)).toNat) := by
  constructor
  · intro a b n _ _ hn
    have hn0 : n ≠ 0 := by omega
    have hcomm : combine a b n = combine b a n := by
      unfold combine
      rw [Int.add_comm]
    have hnn : 0 ≤ combine a b n := by
      unfold combine
      exact Int.emod_nonneg _ hn0
    have hlt : combine a b n < n := by
      unfold combine
      exact Int.emod_lt_of_pos _ (show (0 : Int) < n by omega)
    exact ⟨hcomm, hnn, by omega⟩
  · intro dice randomizer userInput
    rfl

/-- C6 witness: `combine 5 4 6 = combine 4 5 6` and lies in `[0, 5]`. -/
theorem combine_commutative_bounded_witness :
    combine 5 4 6 = combine 4 5 6 ∧ 0 ≤ combine 5 4 6 ∧ combine 5 4 6 ≤ 6 - 1 :=
  combine_commutative_bounded.1 5 4 6 (by decide) (by decide) (by decide)

/-- Pair count over the Cartesian product satisfying a predicate; `winCount`,
`tieCount` and their mirror images are all instances. -/
def cntPairs (p : Int × Int → Bool) (as' bs : List Int) : Nat :=
  ((pyProduct as' bs).filter p).length

lemma pyProduct_nil_right (as' : List Int) : pyProduct as' [] = [] := by
  induction as' with
  | nil => rfl
  | cons a rest ih => simp [pyProduct] at ih ⊢

lemma length_pyProduct (as' bs : List Int) :
    (pyProduct as' bs).length = as'.length * bs.length := by
  induction as' with
  | nil => simp [pyProduct]
  | cons a rest ih =>
    show (bs.map (fun b => (a, b)) ++ pyProduct rest bs).length = _
    rw [List.length_append, List.length_map, ih, List.length_cons]
    ring

lemma length_filter_map_pair (a : Int) (bs : List Int) (p : Int × Int → Bool) :
    ((bs.map (fun b => (a, b))).filter p).length =
      (bs.filter (fun b => p (a, b))).length := by
  induction bs with
  | nil => rfl
  | cons b rest ih =>
    by_cases h : p (a, b) <;> simp [List.filter_cons, h, ih]

lemma cntPairs_cons_left (p : Int × Int → Bool) (a : Int) (as' bs : List Int) :
    cntPairs p (a :: as') bs =
      (bs.filter (fun b => p (a, b))).length + cntPairs p as' bs := by
  show ((bs.map (fun b => (a, b)) ++ pyProduct as' bs).filter p).length = _
  rw [List.filter_append, List.length_append, length_filter_map_pair]
  rfl

lemma cntPairs_nil_right (p : Int × Int → Bool) (as' : List Int) :
    cntPairs p as' [] = 0 := by
  unfold cntPairs
  rw [pyProduct_nil_right]
  rfl

lemma cntPairs_cons_right (p : Int × Int → Bool) (b : Int) (as' bs : List Int) :
    cntPairs p as' (b :: bs) =
      (as'.filter (fun a => p (a, b))).length + cntPairs p as' bs := by
  induction as' with
  | nil => rfl
  | cons a rest ih =>
    rw [cntPairs_cons_left, ih, cntPairs_cons_left]
    by_cases h : p (a, b) <;> simp [List.filter_cons, h] <;> omega

lemma filter_trichotomy (a : Int) (bs : List Int) :
    (bs.filter (fun b => decide (b < a))).length +
      (bs.filter (fun b => decide (a < b))).length +
      (bs.filter (fun b => decide (a = b))).length = bs.length := by
  induction bs with
  | nil => rfl
  | cons b rest ih =>
    simp only [List.filter_cons, decide_eq_true_eq]
    split_ifs with h1 h2 h3 h4 h5 h6 h7 <;> simp only [List.length_cons] <;> omega

lemma cntPairs_partition (as' bs : List Int) :
    cntPairs (fun p => decide (p.2 < p.1)) as' bs +
      cntPairs (fun p => decide (p.2 < p.1)) bs as' +
      cntPairs (fun p => decide (p.1 = p.2)) as' bs =
      as'.length * bs.length := by
  induction as' with
  | nil =>
    rw [cntPairs_nil_right]
    simp [cntPairs, pyProduct]
  | cons a rest ih =>
    rw [cntPairs_cons_left, cntPairs_cons_right, cntPairs_cons_left]
    have e1 : (fun b => decide ((a, b).2 < (a, b).1)) = (fun b : Int => decide (b < a)) := rfl
    have e2 : (fun x => decide ((x, a).2 < (x, a).1)) = (fun x : Int => decide (a < x)) := rfl
    have e3 : (fun b => decide ((a, b).1 = (a, b).2)) = (fun b : Int => decide (a = b)) := rfl
    rw [e1, e2, e3, List.length_cons]
    have tri := filter_trichotomy a bs
    have hmul : (rest.length + 1) * bs.length = bs.length + rest.length * bs.length := by ring
    omega

lemma mem_pyProduct {x y : Int} {as' bs : List Int} :
    (x, y) ∈ pyProduct as' bs ↔ x ∈ as' ∧ y ∈ bs := by
  simp [pyProduct]

lemma cntPairs_eq_zero_iff (as' bs : List Int) :
    cntPairs (fun p => decide (p.1 = p.2)) as' bs = 0 ↔
      ∀ x ∈ as', ∀ y ∈ bs, x ≠ y := by
  unfold cntPairs
  rw [List.length_eq_zero, List.filter_eq_nil_iff]
  constructor
  · intro h x hx y hy hxy
    have := h (x, y) (mem_pyProduct.mpr ⟨hx, hy⟩)
    simp at this
    exact this hxy
  · intro h q hq
    rcases q with ⟨x, y⟩
    have := h x (mem_pyProduct.mp hq).1 y (mem_pyProduct.mp hq).2
    simp [this]

lemma winCount_eq (a b : Dice) :
    winCount a b = cntPairs (fun p => decide (p.2 < p.1)) a.sides b.sides := rfl

lemma totalPairs_eq (a b : Dice) :
    totalPairs a b = a.num_sides * b.num_sides :=
  length_pyProduct a.sides b.sides

lemma winCount_le_totalPairs (a b : Dice) : winCount a b ≤ totalPairs a b :=
  List.length_filter_le _ _

/-- C7: the win probability is exactly the strict-win pair count over the full
`|A| · |B|` Cartesian product; the two opposite strict-win counts sum to at
most `|A| · |B|`, with equality exactly when no face of A equals a face of B. -/
theorem calculate_probability_exact (a b : Dice) :
    calculate_probability a b = (winCount a b : ℚ) / ((a.num_sides * b.num_sides : Nat) : ℚ) ∧
    winCount a b + winCount b a ≤ a.num_sides * b.num_sides ∧
    (winCount a b + winCount b a = a.num_sides * b.num_sides ↔
      ∀ x ∈ a.sides, ∀ y ∈ b.sides, x ≠ y) := by
  have hpart := cntPairs_partition a.sides b.sides
  have hz := cntPairs_eq_zero_iff a.sides b.sides
  have hwa : winCount a b = cntPairs (fun p => decide (p.2 < p.1)) a.sides b.sides := rfl
  have hwb : winCount b a = cntPairs (fun p => decide (p.2 < p.1)) b.sides a.sides := rfl
  have hsides : a.num_sides * b.num_sides = a.sides.length * b.sides.length := rfl
  refine ⟨?_, by omega, ?_⟩
  · unfold calculate_probability
    rw [totalPairs_eq]
    by_cases h : 0 < a.num_sides * b.num_sides
    · rw [if_pos h]
    · rw [if_neg h]
      have h0 : a.num_sides * b.num_sides = 0 := by omega
      rw [h0]
      norm_num
  · constructor
    · intro h
      exact hz.mp (by omega)
    · intro h
      have := hz.mpr h
      omega

/-- C7 witness: the exact-ratio formula instantiated at the spec's
non-transitive dice A and B. -/
theorem calculate_probability_exact_witness :
    calculate_probability ⟨[2, 2, 4, 4, 9, 9]⟩ ⟨[1, 1, 6, 6, 8, 8]⟩ =
      ((winCount ⟨[2, 2, 4, 4, 9, 9]⟩ ⟨[1, 1, 6, 6, 8, 8]⟩ : Nat) : ℚ) / ((36 : Nat) : ℚ) :=
  (calculate_probability_exact ⟨[2, 2, 4, 4, 9, 9]⟩ ⟨[1, 1, 6, 6, 8, 8]⟩).1

/-- C10: the probability function is total — degenerate (empty-face) inputs
produce `0` rather than a division by zero — and every result lies in `[0, 1]`. -/
theorem calculate_probability_total_bounded (a b : Dice) :
    0 ≤ calculate_probability a b ∧ calculate_probability a b ≤ 1 ∧
    (totalPairs a b = 0 → calculate_probability a b = 0) := by
  unfold calculate_probability
  by_cases h : 0 < totalPairs a b
  · rw [if_pos h]
    have hle : winCount a b ≤ totalPairs a b := winCount_le_totalPairs a b
    have hposQ : (0 : ℚ) < (totalPairs a b : ℚ) := by exact_mod_cast h
    refine ⟨div_nonneg (by positivity) (le_of_lt hposQ), ?_, ?_⟩
    · rw [div_le_one hposQ]
      exact_mod_cast hle
    · intro h0
      omega
  · rw [if_neg h]
    norm_num

/-- C10 witness: a die with no faces yields probability `0`, with `0` total pairs. -/
theorem calculate_probability_total_bounded_witness :
    calculate_probability ⟨[]⟩ ⟨[1, 2, 3]⟩ = 0 :=
  (calculate_probability_total_bounded ⟨[]⟩ ⟨[1, 2, 3]⟩).2.2 (by rfl)

lemma andThen_of_ok {α β : Type} {r : Interaction α} {a : α} {rest : List String}
    (h : r.2 = .ok (a, rest)) (f : α → List String → Interaction β) :
    andThen r f = (r.1 ++ (f a rest).1, (f a rest).2) := by
  rcases r with ⟨es, o⟩
  cases o with
  | ok p =>
    simp only at h
    rw [h]
    rfl
  | exited c => simp at h
  | raised m => simp at h
  | stuck => simp at h

lemma andThen_of_exited {α β : Type} {r : Interaction α} {c : Nat}
    (h : r.2 = .exited c) (f : α → List String → Interaction β) :
    andThen r f = (r.1, .exited c) := by
  rcases r with ⟨es, o⟩
  cases o with
  | ok p => simp at h
  | exited c' => simp only at h; rw [h]; rfl
  | raised m => simp at h
  | stuck => simp at h

lemma andThen_of_raised {α β : Type} {r : Interaction α} {m : String}
    (h : r.2 = .raised m) (f : α → List String → Interaction β) :
    andThen r f = (r.1, .raised m) := by
  rcases r with ⟨es, o⟩
  cases o with
  | ok p => simp at h
  | exited c => simp at h
  | raised m' => simp only at h; rw [h]; rfl
  | stuck => simp at h

lemma andThen_of_stuck {α β : Type} {r : Interaction α}
    (h : r.2 = .stuck) (f : α → List String → Interaction β) :
    andThen r f = (r.1, .stuck) := by
  rcases r with ⟨es, o⟩
  cases o with
  | ok p => simp at h
  | exited c => simp at h
  | raised m => simp at h
  | stuck => rfl

lemma andThen_ok_inv {α β : Type} {r : Interaction α}
    {f : α → List String → Interaction β} {b : β × List String}
    (h : (andThen r f).2 = .ok b) :
    ∃ a rest, r.2 = .ok (a, rest) ∧ (f a rest).2 = .ok b ∧
      (andThen r f).1 = r.1 ++ (f a rest).1 := by
  rcases r with ⟨es, o⟩
  cases o with
  | ok p =>
    rcases p with ⟨a, rest⟩
    refine ⟨a, rest, rfl, ?_, ?_⟩
    · have : andThen (⟨es, .ok (a, rest)⟩ : Interaction α) f =
        (es ++ (f a rest).1, (f a rest).2) := rfl
      rw [this] at h
      exact h
    · rfl
  | exited c => exact absurd h (by simp [andThen])
  | raised m => exact absurd h (by simp [andThen])
  | stuck => exact absurd h (by simp [andThen])

lemma withEvent_fst {α : Type} (e : Event) (r : Interaction α) :
    (withEvent e r).1 = e :: r.1 := rfl

lemma withEvent_snd {α : Type} (e : Event) (r : Interaction α) :
    (withEvent e r).2 = r.2 := rfl


lemma promptLoop_step_help {α : Type} (accept : Int → Option α) (s : String)
    (rest : List String) (hq : pyStrip s.data = ['?']) :
    promptLoop accept (s :: rest) =
      withEvent .promptShown (withEvent .helpShown (promptLoop accept rest)) := by
  rw [promptLoop]
  simp only [hq, if_pos]

lemma promptLoop_step_exit {α : Type} (accept : Int → Option α) (s : String)
    (rest : List String) (hq : pyStrip s.data ≠ ['?'])
    (hx : pyUpper (pyStrip s.data) = ['X']) :
    promptLoop accept (s :: rest) = ([.promptShown], .exited 0) := by
  rw [promptLoop]
  rw [if_neg hq, if_pos hx]

lemma promptLoop_step_ok {α : Type} (accept : Int → Option α) (s : String)
    (rest : List String) {v : Int} {a : α} (hq : pyStrip s.data ≠ ['?'])
    (hx : pyUpper (pyStrip s.data) ≠ ['X'])
    (hp : parsePyInt (pyStrip s.data) = some v) (ha : accept v = some a) :
    promptLoop accept (s :: rest) =
      ([.promptShown, .captureInput v], .ok (a, rest)) := by
  rw [promptLoop]
  simp only [if_neg hq, if_neg hx, hp, ha]

lemma promptLoop_step_invalid {α : Type} (accept : Int → Option α) (s : String)
    (rest : List String) {v : Int} (hq : pyStrip s.data ≠ ['?'])
    (hx : pyUpper (pyStrip s.data) ≠ ['X'])
    (hp : parsePyInt (pyStrip s.data) = some v) (ha : accept v = none) :
    promptLoop accept (s :: rest) =
      withEvent .promptShown (withEvent .invalidInput (promptLoop accept rest)) := by
  rw [promptLoop]
  simp only [if_neg hq, if_neg hx, hp, ha]

lemma promptLoop_step_badparse {α : Type} (accept : Int → Option α) (s : String)
    (rest : List String) (hq : pyStrip s.data ≠ ['?'])
    (hx : pyUpper (pyStrip s.data) ≠ ['X'])
    (hp : parsePyInt (pyStrip s.data) = none) :
    promptLoop accept (s :: rest) =
      withEvent .promptShown (withEvent .invalidInput (promptLoop accept rest)) := by
  rw [promptLoop]
  simp only [if_neg hq, if_neg hx, hp]

/-- The events a prompt loop emits before accepting are only prompts, help
printouts and invalid-input notices. -/
def benignEvent (e : Event) : Prop :=
  e = .promptShown ∨ e = .helpShown ∨ e = .invalidInput

lemma revealAfterCapture_append_of_benign {es : List Event}
    (h : ∀ e ∈ es, benignEvent e) (sfx : List Event) :
    revealAfterCapture (es ++ sfx) = revealAfterCapture sfx := by
  induction es with
  | nil => rfl
  | cons e rest ih =>
    have he := h e (List.mem_cons_self e rest)
    have hrest : ∀ x ∈ rest, benignEvent x :=
      fun x hx => h x (List.mem_cons_of_mem e hx)
    rcases he with he | he | he <;> subst he <;>
      simpa [revealAfterCapture] using ih hrest

/-- Left-to-right case analysis of a `promptLoop` run: it either fails to
accept (emitting only benign events) or returns successfully with a trailing
`captureInput`, again after only benign events. -/
lemma promptLoop_shape {α : Type} (accept : Int → Option α) (inputs : List String) :
    ((∀ e ∈ (promptLoop accept inputs).1, benignEvent e) ∧
      (∀ a rest, (promptLoop accept inputs).2 ≠ .ok (a, rest))) ∨
    (∃ es v a rest, (promptLoop accept inputs).1 = es ++ [Event.captureInput v] ∧
      (∀ e ∈ es, benignEvent e) ∧
      (promptLoop accept inputs).2 = .ok (a, rest)) := by
  induction inputs with
  | nil =>
    left
    constructor
    · intro e he
      rcases List.mem_singleton.mp he with rfl
      left
      rfl
    · intro a rest h
      simp [promptLoop] at h
  | cons s rest ih =>
    by_cases hq : pyStrip s.data = ['?']
    · rw [promptLoop_step_help accept s rest hq]
      rcases ih with ⟨h1, h2⟩ | ⟨es, v, a, r, h1, h2, h3⟩
      · left
        refine ⟨?_, ?_⟩
        · intro e he
          rw [withEvent_fst, withEvent_fst] at he
          simp only [List.mem_cons] at he
          rcases he with rfl | rfl | he
          · left; rfl
          · right; left; rfl
          · exact h1 e he
        · intro a r h
          rw [withEvent_snd, withEvent_snd] at h
          exact h2 a r h
      · right
        refine ⟨.promptShown :: .helpShown :: es, v, a, r, ?_, ?_, ?_⟩
        · rw [withEvent_fst, withEvent_fst, h1]
          rfl
        · intro e he
          simp only [List.mem_cons] at he
          rcases he with rfl | rfl | he
          · left; rfl
          · right; left; rfl
          · exact h2 e he
        · rw [withEvent_snd, withEvent_snd]
          exact h3
    · by_cases hx : pyUpper (pyStrip s.data) = ['X']
      · rw [promptLoop_step_exit accept s rest hq hx]
        left
        refine ⟨?_, ?_⟩
        · intro e he
          rcases List.mem_singleton.mp he with rfl
          left
          rfl
        · intro a r h
          simp at h
      · cases hp : parsePyInt (pyStrip s.data) with
        | some v =>
          cases ha : accept v with
          | some a =>
            rw [promptLoop_step_ok accept s rest hq hx hp ha]
            right
            refine ⟨[.promptShown], v, a, rest, rfl, ?_, rfl⟩
            intro e he
            rcases List.mem_singleton.mp he with rfl
            left
            rfl
          | none =>
            rw [promptLoop_step_invalid accept s rest hq hx hp ha]
            rcases ih with ⟨h1, h2⟩ | ⟨es, v', a, r, h1, h2, h3⟩
            · left
              refine ⟨?_, ?_⟩
              · intro e he
                rw [withEvent_fst, withEvent_fst] at he
                simp only [List.mem_cons] at he
                rcases he with rfl | rfl | he
                · left; rfl
                · right; right; rfl
                · exact h1 e he
              · intro a r h
                rw [withEvent_snd, withEvent_snd] at h
                exact h2 a r h
            · right
              refine ⟨.promptShown :: .invalidInput :: es, v', a, r, ?_, ?_, ?_⟩
              · rw [withEvent_fst, withEvent_fst, h1]
                rfl
              · intro e he
                simp only [List.mem_cons] at he
                rcases he with rfl | rfl | he
                · left; rfl
                · right; right; rfl
                · exact h2 e he
              · rw [withEvent_snd, withEvent_snd]
                exact h3
        | none =>
          rw [promptLoop_step_badparse accept s rest hq hx hp]
          rcases ih with ⟨h1, h2⟩ | ⟨es, v', a, r, h1, h2, h3⟩
          · left
            refine ⟨?_, ?_⟩
            · intro e he
              rw [withEvent_fst, withEvent_fst] at he
              simp only [List.mem_cons] at he
              rcases he with rfl | rfl | he
              · left; rfl
              · right; right; rfl
              · exact h1 e he
            · intro a r h
              rw [withEvent_snd, withEvent_snd] at h
              exact h2 a r h
          · right
            refine ⟨.promptShown :: .invalidInput :: es, v', a, r, ?_, ?_, ?_⟩
            · rw [withEvent_fst, withEvent_fst, h1]
              rfl
            · intro e he
              simp only [List.mem_cons] at he
              rcases he with rfl | rfl | he
              · left; rfl
              · right; right; rfl
              · exact h2 e he
            · rw [withEvent_snd, withEvent_snd]
              exact h3

lemma get_user_input_eq (dice : Dice) (inputs : List String) :
    get_user_input dice inputs =
      promptLoop (fun v => if 0 ≤ v ∧ v < (dice.num_sides : Int) then some v else none)
        inputs := rfl

lemma revealAfterCapture_cons_showTag (t : String) (es : List Event) :
    revealAfterCapture (.showTag t :: es) = revealAfterCapture es := rfl

/-- C1: in every execution of `GameRound.play` — whatever the dice, the HMAC
function, the injected randomness and the stdin lines — the commitment tag is
the first observable event, before any input prompt, and scanning the trace
left to right no reveal ever occurs before the user's input has been captured. -/
theorem play_reveal_after_capture (dice : Dice) (H : HmacFun) (rKey : List Byte)
    (rNum : Int) (inputs : List String) :
    (GameRound.play dice H rKey rNum inputs).1.head? =
      some (.showTag (SecureRandomizer.get_hmac H ⟨0, (dice.num_sides : Int) - 1, rKey, rNum⟩)) ∧
    revealAfterCapture (GameRound.play dice H rKey rNum inputs).1 = true := by
  have hplay : GameRound.play dice H rKey rNum inputs =
      withEvent (.showTag (SecureRandomizer.get_hmac H ⟨0, (dice.num_sides : Int) - 1, rKey, rNum⟩))
        (andThen (get_user_input dice inputs) (fun userInput rest =>
          let p := calculate_and_display_result dice ⟨0, (dice.num_sides : Int) - 1, rKey, rNum⟩ userInput
          (p.1, .ok (p.2, rest)))) := rfl
  rw [hplay]
  set f : Int → List String → Interaction Int := fun userInput rest =>
    let p := calculate_and_display_result dice ⟨0, (dice.num_sides : Int) - 1, rKey, rNum⟩ userInput
    (p.1, .ok (p.2, rest)) with hf
  constructor
  · rw [withEvent_fst]
    rfl
  · rw [withEvent_fst, revealAfterCapture_cons_showTag]
    rcases promptLoop_shape
        (fun v => if 0 ≤ v ∧ v < (dice.num_sides : Int) then some v else none) inputs with
      ⟨h1, h2⟩ | ⟨es, v, a, r, h1, h2, h3⟩
    · rw [← get_user_input_eq] at h1 h2
      cases ho : (get_user_input dice inputs).2 with
      | ok p =>
        rcases p with ⟨a, r⟩
        exact absurd ho (h2 a r)
      | exited c =>
        rw [andThen_of_exited ho f]
        have := revealAfterCapture_append_of_benign h1 []
        rw [List.append_nil] at this
        rw [this]
        rfl
      | raised m =>
        rw [andThen_of_raised ho f]
        have := revealAfterCapture_append_of_benign h1 []
        rw [List.append_nil] at this
        rw [this]
        rfl
      | stuck =>
        rw [andThen_of_stuck ho f]
        have := revealAfterCapture_append_of_benign h1 []
        rw [List.append_nil] at this
        rw [this]
        rfl
    · rw [← get_user_input_eq] at h1 h3
      rw [andThen_of_ok h3 f, h1, List.append_assoc]
      rw [revealAfterCapture_append_of_benign h2]
      rfl

/-- C1 witness: the property at a concrete round (one invalid line, then `2`). -/
theorem play_reveal_after_capture_witness :
    revealAfterCapture
      (GameRound.play ⟨[1, 2, 3, 4, 5, 6]⟩ (fun _ _ => "t") [] 4 ["9", "2"]).1 = true :=
  (play_reveal_after_capture ⟨[1, 2, 3, 4, 5, 6]⟩ (fun _ _ => "t") [] 4 ["9", "2"]).2

lemma andThen_fst_cases {α β : Type} (r : Interaction α)
    (f : α → List String → Interaction β) :
    (andThen r f).1 = r.1 ∨
      ∃ a rest, r.2 = .ok (a, rest) ∧ (andThen r f).1 = r.1 ++ (f a rest).1 := by
  rcases r with ⟨es, o⟩
  cases o with
  | ok p =>
    rcases p with ⟨a, rest⟩
    right
    exact ⟨a, rest, rfl, rfl⟩
  | exited c => left; rfl
  | raised m => left; rfl
  | stuck => left; rfl

lemma stagesOf_append (es fs : List Event) :
    stagesOf (es ++ fs) = stagesOf es ++ stagesOf fs :=
  List.filterMap_append es fs _

lemma stagesOf_of_benign {es : List Event} (h : ∀ e ∈ es, benignEvent e) :
    stagesOf es = [] := by
  induction es with
  | nil => rfl
  | cons e rest ih =>
    have he := h e (List.mem_cons_self e rest)
    have hrest : ∀ x ∈ rest, benignEvent x :=
      fun x hx => h x (List.mem_cons_of_mem e hx)
    rcases he with he | he | he <;> subst he <;>
      simpa [stagesOf] using ih hrest

lemma promptLoop_stagesOf {α : Type} (accept : Int → Option α) (inputs : List String) :
    stagesOf (promptLoop accept inputs).1 = [] := by
  rcases promptLoop_shape accept inputs with ⟨h1, _⟩ | ⟨es, v, a, r, h1, h2, _⟩
  · exact stagesOf_of_benign h1
  · rw [h1, stagesOf_append, stagesOf_of_benign h2]
    rfl

lemma get_user_input_stagesOf (dice : Dice) (inputs : List String) :
    stagesOf (get_user_input dice inputs).1 = [] :=
  promptLoop_stagesOf _ inputs

lemma determine_first_loop_stagesOf (inputs : List String) :
    stagesOf (determine_first_loop inputs).1 = [] :=
  promptLoop_stagesOf _ inputs

lemma user_first_selection_stagesOf (dices : List Dice) (pick : Nat)
    (inputs : List String) :
    stagesOf (user_first_selection dices pick inputs).1 = [] :=
  promptLoop_stagesOf _ inputs

lemma computer_first_loop_stagesOf (dices : List Dice) (remaining : List Nat)
    (inputs : List String) :
    stagesOf (computer_first_loop dices remaining inputs).1 = [] :=
  promptLoop_stagesOf _ inputs

lemma play_stagesOf (dice : Dice) (H : HmacFun) (rKey : List Byte) (rNum : Int)
    (inputs : List String) :
    stagesOf (GameRound.play dice H rKey rNum inputs).1 = [] := by
  have hplay : (GameRound.play dice H rKey rNum inputs).1 =
      .showTag (SecureRandomizer.get_hmac H ⟨0, (dice.num_sides : Int) - 1, rKey, rNum⟩) ::
        (andThen (get_user_input dice inputs) (fun userInput rest =>
          let p := calculate_and_display_result dice ⟨0, (dice.num_sides : Int) - 1, rKey, rNum⟩ userInput
          (p.1, .ok (p.2, rest)))).1 := rfl
  rw [hplay]
  show stagesOf (andThen _ _).1 = []
  rcases andThen_fst_cases (get_user_input dice inputs) _ with hc | ⟨a, rest, _, hc⟩ <;>
    rw [hc]
  · exact get_user_input_stagesOf dice inputs
  · rw [stagesOf_append, get_user_input_stagesOf dice inputs]
    rfl

lemma determine_first_player_stagesOf (H : HmacFun) (tossKey : List Byte)
    (tossNum : Int) (inputs : List String) :
    stagesOf (determine_first_player H tossKey tossNum inputs).1 = [] := by
  have hdf : (determine_first_player H tossKey tossNum inputs).1 =
      .showTag (SecureRandomizer.get_hmac H ⟨0, 1, tossKey, tossNum⟩) ::
        (andThen (determine_first_loop inputs) (fun userInput rest =>
          ([.valueRevealed (SecureRandomizer.reveal ⟨0, 1, tossKey, tossNum⟩).1
              (SecureRandomizer.reveal ⟨0, 1, tossKey, tossNum⟩).2],
           .ok (decide ((SecureRandomizer.reveal ⟨0, 1, tossKey, tossNum⟩).1 = userInput), rest)))).1 := rfl
  rw [hdf]
  show stagesOf (andThen _ _).1 = []
  rcases andThen_fst_cases (determine_first_loop inputs) _ with hc | ⟨a, rest, _, hc⟩ <;>
    rw [hc]
  · exact determine_first_loop_stagesOf inputs
  · rw [stagesOf_append, determine_first_loop_stagesOf inputs]
    rfl

lemma computer_first_selection_stagesOf (dices : List Dice) (pick : Nat)
    (inputs : List String) :
    stagesOf (computer_first_selection dices pick inputs).1 = [] := by
  have hsel : computer_first_selection dices pick inputs =
      andThen (computer_first_loop dices
          (get_remaining_indices dices.length (pick % dices.length)) inputs)
        (fun userDice rest =>
          ([], .ok ((userDice, dices.getD (pick % dices.length) ⟨[]⟩), rest))) := rfl
  rw [hsel]
  rcases andThen_fst_cases (computer_first_loop dices
      (get_remaining_indices dices.length (pick % dices.length)) inputs) _ with
    hc | ⟨a, rest, _, hc⟩ <;> rw [hc]
  · exact computer_first_loop_stagesOf _ _ inputs
  · rw [stagesOf_append, computer_first_loop_stagesOf _ _ inputs]
    rfl

lemma select_dices_stagesOf (dices : List Dice) (userFirst : Bool) (pick : Nat)
    (inputs : List String) :
    stagesOf (select_dices dices userFirst pick inputs).1 = [] := by
  cases userFirst with
  | true => exact user_first_selection_stagesOf dices pick inputs
  | false => exact computer_first_selection_stagesOf dices pick inputs

lemma play_game_stagesOf {H : HmacFun} {userDice compDice : Dice} {o : Oracle}
    {inputs : List String} {p : (Int × Int) × List String}
    (h : (play_game H userDice compDice o inputs).2 = .ok p) :
    stagesOf (play_game H userDice compDice o inputs).1 = [.USER_ROUND, .SYSTEM_ROUND] := by
  have h2 : (andThen (GameRound.play userDice H o.userRoundKey o.userRoundNum inputs)
      (computer_round H compDice o)).2 = .ok p := h
  obtain ⟨u1, r1, hp1, hcr, htr⟩ := andThen_ok_inv h2
  have hpg1 : (play_game H userDice compDice o inputs).1 =
      .stageEntered .USER_ROUND ::
        (andThen (GameRound.play userDice H o.userRoundKey o.userRoundNum inputs)
          (computer_round H compDice o)).1 := rfl
  have hcr2 : (andThen (GameRound.play compDice H o.compRoundKey o.compRoundNum r1)
      (fun compResult rest₂ => (([] : List Event), .ok ((u1, compResult), rest₂)))).2 = .ok p := hcr
  obtain ⟨u2, r2, hp2, _, htr2⟩ := andThen_ok_inv hcr2
  have hcr1 : (computer_round H compDice o u1 r1).1 =
      .stageEntered .SYSTEM_ROUND ::
        (andThen (GameRound.play compDice H o.compRoundKey o.compRoundNum r1)
          (fun compResult rest₂ => (([] : List Event), .ok ((u1, compResult), rest₂)))).1 := rfl
  rw [hpg1, htr]
  show Stage.USER_ROUND :: stagesOf _ = _
  rw [stagesOf_append, play_stagesOf, hcr1, htr2]
  show Stage.USER_ROUND :: ([] ++ Stage.SYSTEM_ROUND :: stagesOf _) = _
  rw [stagesOf_append, play_stagesOf]
  rfl

/-- C4 amended: the orchestrator's stages, on every run that completes
normally, are exactly `INIT, DETERMINE_FIRST, SELECT_DICE, USER_ROUND,
SYSTEM_ROUND, COMPARE, END`, in that order, none revisited — the user's
fairness round resolves before the system's. -/
theorem stage_order_linear (H : HmacFun) (args : List String) (o : Oracle)
    (inputs : List String) (u : Unit × List String)
    (h : (run_game_inner H args o inputs).2 = .ok u) :
    stagesOf (run_game_inner H args o inputs).1 =
      [.INIT, .DETERMINE_FIRST, .SELECT_DICE, .USER_ROUND, .SYSTEM_ROUND, .COMPARE, .END] := by
  cases hparse : DiceParser.parse args with
  | error e =>
    have : (run_game_inner H args o inputs).2 = .raised "ValueError" := by
      show (withEvent (.stageEntered .INIT) (match DiceParser.parse args with
        | .error _ => (([] : List Event), Outcome.raised "ValueError")
        | .ok dices =>
          withEvent (.stageEntered .DETERMINE_FIRST)
            (andThen (determine_first_player H o.tossKey o.tossNum inputs)
              (main_game H dices o)))).2 = _
      rw [hparse]
      rfl
    rw [this] at h
    exact absurd h (by simp)
  | ok dices =>
    have hinner : run_game_inner H args o inputs =
        withEvent (.stageEntered .INIT)
          (withEvent (.stageEntered .DETERMINE_FIRST)
            (andThen (determine_first_player H o.tossKey o.tossNum inputs)
              (main_game H dices o))) := by
      show (withEvent (.stageEntered .INIT) (match DiceParser.parse args with
        | .error _ => (([] : List Event), Outcome.raised "ValueError")
        | .ok dices =>
          withEvent (.stageEntered .DETERMINE_FIRST)
            (andThen (determine_first_player H o.tossKey o.tossNum inputs)
              (main_game H dices o)))) = _
      rw [hparse]
    rw [hinner] at h ⊢
    rw [withEvent_snd, withEvent_snd] at h
    obtain ⟨userFirst, rest, hdf, hmg, htr⟩ := andThen_ok_inv h
    have hmg2 : (andThen (select_dices dices userFirst o.dicePick rest)
        (fun dicePair rest₂ =>
          andThen (play_game H dicePair.1 dicePair.2 o rest₂) compare_results)).2 = .ok u := hmg
    obtain ⟨dicePair, rest₂, hsel, hpc, htr₂⟩ := andThen_ok_inv hmg2
    have hpc2 : (andThen (play_game H dicePair.1 dicePair.2 o rest₂) compare_results).2 =
        .ok u := hpc
    obtain ⟨results, rest₃, hpg, _, htr₃⟩ := andThen_ok_inv hpc2
    rw [withEvent_fst, withEvent_fst, htr]
    show Stage.INIT :: Stage.DETERMINE_FIRST :: stagesOf _ = _
    rw [stagesOf_append, determine_first_player_stagesOf]
    have hmg1 : (main_game H dices o userFirst rest).1 =
        .stageEntered .SELECT_DICE ::
          (andThen (select_dices dices userFirst o.dicePick rest)
            (fun dicePair rest₂ =>
              andThen (play_game H dicePair.1 dicePair.2 o rest₂) compare_results)).1 := rfl
    rw [hmg1, htr₂]
    show Stage.INIT :: Stage.DETERMINE_FIRST :: ([] ++ Stage.SELECT_DICE :: stagesOf _) = _
    rw [stagesOf_append, select_dices_stagesOf, htr₃, stagesOf_append,
      play_game_stagesOf hpg]
    rfl

/-- C4 amended, witness: a complete concrete game realising exactly that
stage order. -/
theorem stage_order_linear_witness :
    stagesOf (run_game_inner (fun _ _ => "t")
        ["1,2,3,4,5,6", "7,8,9,10,11,12", "13,14,15,16,17,18"]
        ⟨[], 0, 0, [], 0, [], 0⟩ ["0", "0", "0", "0"]).1 =
      [.INIT, .DETERMINE_FIRST, .SELECT_DICE, .USER_ROUND, .SYSTEM_ROUND, .COMPARE, .END] :=
  stage_order_linear (fun _ _ => "t")
    ["1,2,3,4,5,6", "7,8,9,10,11,12", "13,14,15,16,17,18"]
    ⟨[], 0, 0, [], 0, [], 0⟩ ["0", "0", "0", "0"] ((), []) (by rfl)

/-- C4 counterexample: on a concrete complete game the stage trace runs the
user's round before the system's round, so it differs from the claimed order
`INIT, DETERMINE_FIRST, SELECT_DICE, SYSTEM_ROUND, USER_ROUND, COMPARE, END`. -/
theorem stage_order_cex :
    stagesOf (run_game_inner (fun _ _ => "t")
        ["1,2,3,4,5,6", "7,8,9,10,11,12", "13,14,15,16,17,18"]
        ⟨[], 1, 0, [], 0, [], 0⟩ ["1", "0", "0", "0"]).1 ≠
      [.INIT, .DETERMINE_FIRST, .SELECT_DICE, .SYSTEM_ROUND, .USER_ROUND, .COMPARE, .END] ∧
    stagesOf (run_game_inner (fun _ _ => "t")
        ["1,2,3,4,5,6", "7,8,9,10,11,12", "13,14,15,16,17,18"]
        ⟨[], 1, 0, [], 0, [], 0⟩ ["1", "0", "0", "0"]).1 =
      [.INIT, .DETERMINE_FIRST, .SELECT_DICE, .USER_ROUND, .SYSTEM_ROUND, .COMPARE, .END] := by
  constructor
  · intro h
    exact absurd h (by decide)
  · rfl

/-- Outcomes that are not Python `Exception`s and whose only `sys.exit` code
is 0: what every piece of the game after successful argument parsing produces. -/
def nonErrorExit {α : Type} (o : Outcome α) : Prop :=
  (∀ c, o = .exited c → c = 0) ∧ (∀ m, o ≠ .raised m)

lemma nonErrorExit_ok {α : Type} (a : α) : nonErrorExit (.ok a) :=
  ⟨fun _ h => (nomatch h), fun _ h => nomatch h⟩

lemma nonErrorExit_stuck {α : Type} : nonErrorExit (Outcome.stuck : Outcome α) :=
  ⟨fun _ h => (nomatch h), fun _ h => nomatch h⟩

lemma nonErrorExit_exited_zero {α : Type} : nonErrorExit (Outcome.exited 0 : Outcome α) := by
  refine ⟨?_, ?_⟩
  · intro c h
    cases h
    rfl
  · intro m h
    cases h

lemma withEvent_nonErrorExit {α : Type} (e : Event) {r : Interaction α}
    (h : nonErrorExit r.2) : nonErrorExit (withEvent e r).2 := h

lemma andThen_nonErrorExit {α β : Type} {r : Interaction α}
    {f : α → List String → Interaction β} (hr : nonErrorExit r.2)
    (hf : ∀ a rest, nonErrorExit (f a rest).2) :
    nonErrorExit (andThen r f).2 := by
  rcases r with ⟨es, o⟩
  cases o with
  | ok p =>
    rcases p with ⟨a, rest⟩
    exact hf a rest
  | exited c =>
    refine ⟨?_, ?_⟩
    · intro c' h
      cases h
      exact hr.1 c rfl
    · intro m h
      cases h
  | raised m => exact absurd rfl (hr.2 m)
  | stuck => exact nonErrorExit_stuck

lemma promptLoop_nonErrorExit {α : Type} (accept : Int → Option α)
    (inputs : List String) : nonErrorExit (promptLoop accept inputs).2 := by
  induction inputs with
  | nil => exact nonErrorExit_stuck
  | cons s rest ih =>
    by_cases hq : pyStrip s.data = ['?']
    · rw [promptLoop_step_help accept s rest hq]
      exact withEvent_nonErrorExit _ (withEvent_nonErrorExit _ ih)
    · by_cases hx : pyUpper (pyStrip s.data) = ['X']
      · rw [promptLoop_step_exit accept s rest hq hx]
        exact nonErrorExit_exited_zero
      · cases hp : parsePyInt (pyStrip s.data) with
        | some v =>
          cases ha : accept v with
          | some a =>
            rw [promptLoop_step_ok accept s rest hq hx hp ha]
            exact nonErrorExit_ok _
          | none =>
            rw [promptLoop_step_invalid accept s rest hq hx hp ha]
            exact withEvent_nonErrorExit _ (withEvent_nonErrorExit _ ih)
        | none =>
          rw [promptLoop_step_badparse accept s rest hq hx hp]
          exact withEvent_nonErrorExit _ (withEvent_nonErrorExit _ ih)

lemma play_nonErrorExit (dice : Dice) (H : HmacFun) (rKey : List Byte)
    (rNum : Int) (inputs : List String) :
    nonErrorExit (GameRound.play dice H rKey rNum inputs).2 := by
  refine withEvent_nonErrorExit _ (andThen_nonErrorExit ?_ ?_)
  · exact promptLoop_nonErrorExit _ inputs
  · intro a rest
    exact nonErrorExit_ok _

lemma determine_first_player_nonErrorExit (H : HmacFun) (tossKey : List Byte)
    (tossNum : Int) (inputs : List String) :
    nonErrorExit (determine_first_player H tossKey tossNum inputs).2 := by
  refine withEvent_nonErrorExit _ (andThen_nonErrorExit ?_ ?_)
  · exact promptLoop_nonErrorExit _ inputs
  · intro a rest
    exact nonErrorExit_ok _

lemma select_dices_nonErrorExit (dices : List Dice) (userFirst : Bool) (pick : Nat)
    (inputs : List String) :
    nonErrorExit (select_dices dices userFirst pick inputs).2 := by
  cases userFirst with
  | true => exact promptLoop_nonErrorExit _ inputs
  | false =>
    have hsel : select_dices dices false pick inputs =
        andThen (computer_first_loop dices
            (get_remaining_indices dices.length (pick % dices.length)) inputs)
          (fun userDice rest =>
            ([], .ok ((userDice, dices.getD (pick % dices.length) ⟨[]⟩), rest))) := rfl
    rw [hsel]
    refine andThen_nonErrorExit (promptLoop_nonErrorExit _ inputs) ?_
    intro a rest
    exact nonErrorExit_ok _

lemma play_game_nonErrorExit (H : HmacFun) (userDice compDice : Dice) (o : Oracle)
    (inputs : List String) :
    nonErrorExit (play_game H userDice compDice o inputs).2 := by
  refine withEvent_nonErrorExit _ (andThen_nonErrorExit (play_nonErrorExit _ _ _ _ _) ?_)
  intro a rest
  refine withEvent_nonErrorExit _ (andThen_nonErrorExit (play_nonErrorExit _ _ _ _ _) ?_)
  intro a' rest'
  exact nonErrorExit_ok _

lemma main_game_nonErrorExit (H : HmacFun) (dices : List Dice) (o : Oracle)
    (userFirst : Bool) (inputs : List String) :
    nonErrorExit (main_game H dices o userFirst inputs).2 := by
  refine withEvent_nonErrorExit _
    (andThen_nonErrorExit (select_dices_nonErrorExit _ _ _ _) ?_)
  intro a rest
  refine andThen_nonErrorExit (play_game_nonErrorExit _ _ _ _ _) ?_
  intro a' rest'
  exact nonErrorExit_ok _

lemma run_game_inner_outcome (H : HmacFun) (args : List String) (o : Oracle)
    (inputs : List String) :
    (run_game_inner H args o inputs).2 = .raised "ValueError" ∨
      nonErrorExit (run_game_inner H args o inputs).2 := by
  cases hparse : DiceParser.parse args with
  | error e =>
    left
    show (withEvent (.stageEntered .INIT) (match DiceParser.parse args with
      | .error _ => (([] : List Event), Outcome.raised "ValueError")
      | .ok dices =>
        withEvent (.stageEntered .DETERMINE_FIRST)
          (andThen (determine_first_player H o.tossKey o.tossNum inputs)
            (main_game H dices o)))).2 = _
    rw [hparse]
    rfl
  | ok dices =>
    right
    have hinner : run_game_inner H args o inputs =
        withEvent (.stageEntered .INIT)
          (withEvent (.stageEntered .DETERMINE_FIRST)
            (andThen (determine_first_player H o.tossKey o.tossNum inputs)
              (main_game H dices o))) := by
      show (withEvent (.stageEntered .INIT) (match DiceParser.parse args with
        | .error _ => (([] : List Event), Outcome.raised "ValueError")
        | .ok dices =>
          withEvent (.stageEntered .DETERMINE_FIRST)
            (andThen (determine_first_player H o.tossKey o.tossNum inputs)
              (main_game H dices o)))) = _
      rw [hparse]
    rw [hinner]
    refine withEvent_nonErrorExit _ (withEvent_nonErrorExit _
      (andThen_nonErrorExit (determine_first_player_nonErrorExit _ _ _ _) ?_))
    intro a rest
    exact main_game_nonErrorExit _ _ _ _ _

lemma run_game_of_exited {H : HmacFun} {args : List String} {o : Oracle}
    {inputs : List String} {c : Nat}
    (h : (run_game_inner H args o inputs).2 = .exited c) :
    run_game H args o inputs = ((run_game_inner H args o inputs).1, some c) := by
  unfold run_game
  rcases hp : run_game_inner H args o inputs with ⟨es, out⟩
  have h2 : out = .exited c := by rw [hp] at h; exact h
  subst h2
  rfl

lemma ne_help_of_exit_input {s : String} (hX : pyUpper (pyStrip s.data) = ['X']) :
    pyStrip s.data ≠ ['?'] := by
  intro h
  rw [h] at hX
  exact absurd hX (by decide)

/-- C9: a stripped input line whose `upper()` is `X` makes every one of the
four interactive prompts terminate at once with `sys.exit(0)`; and a
`SystemExit` raised anywhere inside the game passes through the orchestrator's
`except Exception` handler untouched, so the process status is the exit's own
code — which for these interactive exits is always 0, never the error path 1. -/
theorem exit_input_terminates_zero :
    (∀ (s : String) (rest : List String), pyUpper (pyStrip s.data) = ['X'] →
      (∀ dice : Dice, get_user_input dice (s :: rest) = ([.promptShown], .exited 0)) ∧
      determine_first_loop (s :: rest) = ([.promptShown], .exited 0) ∧
      (∀ (dices : List Dice) (pick : Nat),
        user_first_selection dices pick (s :: rest) = ([.promptShown], .exited 0)) ∧
      (∀ (dices : List Dice) (remaining : List Nat),
        computer_first_loop dices remaining (s :: rest) = ([.promptShown], .exited 0))) ∧
    (∀ (H : HmacFun) (args : List String) (o : Oracle) (inputs : List String) (c : Nat),
      (run_game_inner H args o inputs).2 = .exited c →
      (run_game H args o inputs).2 = some c ∧ c = 0) := by
  constructor
  · intro s rest hX
    have hq := ne_help_of_exit_input hX
    exact ⟨fun dice => promptLoop_step_exit _ s rest hq hX,
      promptLoop_step_exit _ s rest hq hX,
      fun dices pick => promptLoop_step_exit _ s rest hq hX,
      fun dices remaining => promptLoop_step_exit _ s rest hq hX⟩
  · intro H args o inputs c h
    refine ⟨by rw [run_game_of_exited h], ?_⟩
    rcases run_game_inner_outcome H args o inputs with hr | hr
    · rw [h] at hr
      cases hr
    · exact hr.1 c h

/-- C9 witness: the input line `x` at the turn-order prompt exits with code 0,
and a concrete run reaching that prompt has process status 0. -/
theorem exit_input_terminates_zero_witness :
    determine_first_loop ["x"] = ([.promptShown], .exited 0) ∧
    (run_game (fun _ _ => "t") ["1,2,3,4,5,6", "7,8,9,10,11,12", "13,14,15,16,17,18"]
        ⟨[], 0, 0, [], 0, [], 0⟩ ["x"]).2 = some 0 ∧ (0 : Nat) = 0 :=
  ⟨(exit_input_terminates_zero.1 "x" [] (by decide)).2.1,
   exit_input_terminates_zero.2 (fun _ _ => "t")
     ["1,2,3,4,5,6", "7,8,9,10,11,12", "13,14,15,16,17,18"]
     ⟨[], 0, 0, [], 0, [], 0⟩ ["x"] 0 (by rfl)⟩

lemma findSizeMismatch_eq_none_iff (expected : Nat) (i : Nat) (ds : List Dice) :
    findSizeMismatch expected i ds = none ↔ ∀ d ∈ ds, d.num_sides = expected := by
  induction ds generalizing i with
  | nil => simp [findSizeMismatch]
  | cons d rest ih =>
    rw [findSizeMismatch]
    by_cases h : d.num_sides ≠ expected
    · rw [if_pos h]
      simp only [List.mem_cons]
      constructor
      · intro hk
        cases hk
      · intro hk
        exact absurd (hk d (Or.inl rfl)) h
    · rw [if_neg h]
      push_neg at h
      rw [ih (i + 1)]
      simp only [List.mem_cons]
      constructor
      · intro hk e he
        rcases he with rfl | he
        · exact h
        · exact hk e he
      · intro hk e he
        exact hk e (Or.inr he)

lemma findPairInner_eq_none_iff (p : Dice → Dice → Bool) (d : Dice) (j : Nat)
    (rest : List Dice) :
    findPairInner p d j rest = none ↔ ∀ e ∈ rest, p d e = false := by
  induction rest generalizing j with
  | nil => simp [findPairInner]
  | cons e rest ih =>
    rw [findPairInner]
    by_cases h : p d e
    · rw [if_pos h]
      simp only [List.mem_cons]
      constructor
      · intro hk
        cases hk
      · intro hk
        have := hk e (Or.inl rfl)
        rw [h] at this
        cases this
    · rw [if_neg h]
      rw [ih (j + 1)]
      simp only [List.mem_cons]
      constructor
      · intro hk x hx
        rcases hx with rfl | hx
        · exact Bool.eq_false_iff.mpr h
        · exact hk x hx
      · intro hk x hx
        exact hk x (Or.inr hx)

lemma findPairViolation_eq_none_iff (p : Dice → Dice → Bool) (i : Nat)
    (ds : List Dice) :
    findPairViolation p i ds = none ↔ ds.Pairwise (fun d e => p d e = false) := by
  induction ds generalizing i with
  | nil => simp [findPairViolation]
  | cons d rest ih =>
    rw [findPairViolation]
    cases hin : findPairInner p d (i + 1) rest with
    | some j =>
      simp only [List.pairwise_cons]
      constructor
      · intro hk
        cases hk
      · intro hk
        have := (findPairInner_eq_none_iff p d (i + 1) rest).mpr (fun e he => hk.1 e he)
        rw [hin] at this
        cases this
    | none =>
      rw [ih (i + 1)]
      simp only [List.pairwise_cons]
      constructor
      · intro hk
        exact ⟨(findPairInner_eq_none_iff p d (i + 1) rest).mp hin, hk⟩
      · intro hk
        exact hk.2

lemma identicalSides_eq_false_iff (d e : Dice) :
    identicalSides d e = false ↔ d.sides ≠ e.sides := by
  unfold identicalSides
  simp

lemma sharesValue_eq_false_iff (d e : Dice) :
    sharesValue d e = false ↔ ∀ v ∈ d.sides, v ∉ e.sides := by
  unfold sharesValue
  simp [List.any_eq_true]

/-- C8 counterexample: with a five-faced die 1 and a non-integer token in die
2, the parser aborts with die 1's face-count error, not the non-integer error
that the claim's global check order (non-integer before face count) predicts. -/
theorem parser_order_cex :
    DiceParser.parse ["1,2,3,4,5", "x,2,3,4,5,6", "7,8,9,10,11,12"] =
      .error (.tooFewSides 1 5) ∧
    ParseErr.tooFewSides 1 5 ≠ ParseErr.nonInteger 2 :=
  ⟨rfl, by decide⟩

lemma run_game_inner_of_parse_error (H : HmacFun) {args : List String} (o : Oracle)
    (inputs : List String) {e : ParseErr}
    (h : DiceParser.parse args = .error e) :
    run_game_inner H args o inputs = ([.stageEntered .INIT], .raised "ValueError") := by
  show (withEvent (.stageEntered .INIT) (match DiceParser.parse args with
    | .error _ => (([] : List Event), Outcome.raised "ValueError")
    | .ok dices =>
      withEvent (.stageEntered .DETERMINE_FIRST)
        (andThen (determine_first_player H o.tossKey o.tossNum inputs)
          (main_game H dices o)))) = _
  rw [h]
  rfl


lemma except_bind_ok {ε α β : Type} (a : α) (f : α → Except ε β) :
    Except.bind (Except.ok a) f = f a := rfl

lemma except_bind_err {ε α β : Type} (e : ε) (f : α → Except ε β) :
    Except.bind (Except.error e) f = Except.error e := rfl

lemma validate_dice_sizes_ok_iff (ds : List Dice) :
    validate_dice_sizes ds = .ok () ↔
      ∀ d ∈ ds, d.num_sides = (ds.headD ⟨[]⟩).num_sides := by
  cases ds with
  | nil => simp [validate_dice_sizes]
  | cons d₀ rest =>
    have hdef : validate_dice_sizes (d₀ :: rest) =
        (match findSizeMismatch d₀.num_sides 2 rest with
         | some (i, n) => Except.error (.sizeMismatch d₀.num_sides i n)
         | none => .ok ()) := rfl
    rw [hdef]
    cases hs : findSizeMismatch d₀.num_sides 2 rest with
    | some pr =>
      rcases pr with ⟨i, n⟩
      constructor
      · intro h
        cases h
      · intro hk
        have hnone : findSizeMismatch d₀.num_sides 2 rest = none :=
          (findSizeMismatch_eq_none_iff _ _ _).mpr
            (fun d hd => hk d (List.mem_cons_of_mem d₀ hd))
        rw [hs] at hnone
        cases hnone
    | none =>
      constructor
      · intro _ d hd
        rcases List.mem_cons.mp hd with rfl | hd
        · rfl
        · exact (findSizeMismatch_eq_none_iff _ _ _).mp hs d hd
      · intro _
        rfl

lemma validate_unique_dice_ok_iff (ds : List Dice) :
    validate_unique_dice ds = .ok () ↔
      (ds.Pairwise (fun d e => d.sides ≠ e.sides) ∧
        ds.Pairwise (fun d e => ∀ v ∈ d.sides, v ∉ e.sides)) := by
  unfold validate_unique_dice
  cases hid : findPairViolation identicalSides 1 ds with
  | some pr =>
    rcases pr with ⟨i, j⟩
    constructor
    · intro h
      cases h
    · intro hk
      have hnone : findPairViolation identicalSides 1 ds = none :=
        (findPairViolation_eq_none_iff _ _ _).mpr
          (hk.1.imp (fun hde => (identicalSides_eq_false_iff _ _).mpr hde))
      rw [hid] at hnone
      cases hnone
  | none =>
    cases hsh : findPairViolation sharesValue 1 ds with
    | some pr =>
      rcases pr with ⟨i, j⟩
      constructor
      · intro h
        cases h
      · intro hk
        have hnone : findPairViolation sharesValue 1 ds = none :=
          (findPairViolation_eq_none_iff _ _ _).mpr
            (hk.2.imp (fun hde => (sharesValue_eq_false_iff _ _).mpr hde))
        rw [hsh] at hnone
        cases hnone
    | none =>
      constructor
      · intro _
        exact ⟨((findPairViolation_eq_none_iff _ _ _).mp hid).imp
            (fun hde => (identicalSides_eq_false_iff _ _).mp hde),
          ((findPairViolation_eq_none_iff _ _ _).mp hsh).imp
            (fun hde => (sharesValue_eq_false_iff _ _).mp hde)⟩
      · intro _
        rfl

/-- C8 amended: `DiceParser.parse` accepts exactly the argument lists with at
least three dice that all parse (integer tokens and the six-face minimum are
checked die by die, interleaved in die order, not as two global stages),
share one face count, and are pairwise non-identical and pairwise
value-disjoint; fewer than three arguments abort first with a descriptive
error, a per-die failure aborts before any cross-die check, and every parse
failure makes the orchestrator exit with status 1. -/
theorem parser_characterization :
    (∀ (args : List String) (ds : List Dice),
      DiceParser.parse args = .ok ds ↔
        (3 ≤ args.length ∧ parseAllDice 1 args = .ok ds ∧
          (∀ d ∈ ds, d.num_sides = (ds.headD ⟨[]⟩).num_sides) ∧
          ds.Pairwise (fun d e => d.sides ≠ e.sides) ∧
          ds.Pairwise (fun d e => ∀ v ∈ d.sides, v ∉ e.sides))) ∧
    (∀ args : List String, args.length < 3 →
      DiceParser.parse args = .error .tooFewDice) ∧
    (∀ (args : List String) (e : ParseErr), 3 ≤ args.length →
      parseAllDice 1 args = .error e → DiceParser.parse args = .error e) ∧
    (∀ (H : HmacFun) (args : List String) (o : Oracle) (inputs : List String)
      (e : ParseErr), DiceParser.parse args = .error e →
      (run_game H args o inputs).2 = some 1) := by
  refine ⟨?_, ?_, ?_, ?_⟩
  · intro args ds
    unfold DiceParser.parse
    by_cases h3 : args.length < 3
    · rw [if_pos h3]
      constructor
      · intro h
        cases h
      · rintro ⟨h3', _⟩
        omega
    · rw [if_neg h3]
      cases hall : parseAllDice 1 args with
      | error e =>
        rw [except_bind_err]
        constructor
        · intro h
          cases h
        · rintro ⟨_, hall', _⟩
          cases hall'
      | ok dices =>
        rw [except_bind_ok]
        cases hv1 : validate_dice_sizes dices with
        | error e =>
          rw [except_bind_err]
          constructor
          · intro h
            cases h
          · rintro ⟨_, hall', hsz, _⟩
            cases hall'
            have hok : validate_dice_sizes ds = .ok () :=
              (validate_dice_sizes_ok_iff ds).mpr hsz
            rw [hv1] at hok
            cases hok
        | ok u =>
          cases u
          rw [except_bind_ok]
          cases hv2 : validate_unique_dice dices with
          | error e =>
            rw [except_bind_err]
            constructor
            · intro h
              cases h
            · rintro ⟨_, hall', _, hid, hsh⟩
              cases hall'
              have hok : validate_unique_dice ds = .ok () :=
                (validate_unique_dice_ok_iff ds).mpr ⟨hid, hsh⟩
              rw [hv2] at hok
              cases hok
          | ok u₂ =>
            cases u₂
            rw [except_bind_ok]
            constructor
            · intro h
              cases h
              exact ⟨by omega, rfl, (validate_dice_sizes_ok_iff _).mp hv1,
                ((validate_unique_dice_ok_iff _).mp hv2).1,
                ((validate_unique_dice_ok_iff _).mp hv2).2⟩
            · rintro ⟨_, hall', _⟩
              cases hall'
              rfl
  · intro args h3
    unfold DiceParser.parse
    rw [if_pos h3]
  · intro args e h3 hall
    unfold DiceParser.parse
    rw [if_neg (by omega), hall]
    rfl
  · intro H args o inputs e h
    have hi := run_game_inner_of_parse_error H o inputs h
    unfold run_game
    rw [hi]

/-- C8 amended, witness: the spec's scenarios — too few dice rejected, a
well-formed value-disjoint triple accepted. -/
theorem parser_characterization_witness :
    DiceParser.parse ["1,2,3,4,5,6", "1,2,3,4,5,6"] = .error .tooFewDice ∧
    DiceParser.parse ["1,2,3,4,5,6", "7,8,9,10,11,12", "13,14,15,16,17,18"] =
      .ok [⟨[1, 2, 3, 4, 5, 6]⟩, ⟨[7, 8, 9, 10, 11, 12]⟩, ⟨[13, 14, 15, 16, 17, 18]⟩] :=
  ⟨parser_characterization.2.1 ["1,2,3,4,5,6", "1,2,3,4,5,6"] (by decide),
   (parser_characterization.1 ["1,2,3,4,5,6", "7,8,9,10,11,12", "13,14,15,16,17,18"]
       [⟨[1, 2, 3, 4, 5, 6]⟩, ⟨[7, 8, 9, 10, 11, 12]⟩, ⟨[13, 14, 15, 16, 17, 18]⟩]).mpr
     (by refine ⟨by decide, by rfl, ?_, ?_, ?_⟩ <;> decide)⟩
